import Mathlib

/-!
Shallow embedding of the helix-rust core, for checking the specification's
claims about the sync coordinator (vector clocks, conflict resolution), the
memory-synthesis pattern detector, and the psychology decay engine.

Translation conventions:
* `HashMap<String, u64>` is modelled as an association list `List (String × Nat)`;
  the hash map's unique-keys representation invariant appears as a `keysNodup`
  hypothesis where a proof needs it.
* `DateTime<Utc>` timestamps and `chrono::Duration` are modelled as `Int`
  seconds; `Duration::num_hours` is truncating division by 3600, as in chrono.
* `f32`/`f64` arithmetic on confidences and valences (only ever compared) is
  modelled over `ℚ`; the transcendental decay formulae are modelled over `ℝ`.
* Fallible database calls are modelled as `Except String` values; the decay
  engine's UPDATE statement is an oracle parameter.
-/

namespace Helix

/-- Contents of `VectorClock.clocks` (sync-coordinator/src/vector_clock.rs):
a map from device identifier to counter, as an association list. -/
abbrev Clocks := List (String × Nat)

/-- Counter stored for device `d`, a missing key read as 0: models
`other.clocks.get(device).copied().unwrap_or(0)`. -/
def lookupD : Clocks → String → Nat
  | [], _ => 0
  | (k, v) :: rest, d => if k = d then v else lookupD rest d

/-- Models `clocks.contains_key(device)`. -/
def containsKey : Clocks → String → Bool
  | [], _ => false
  | (k, _) :: rest, d => k = d || containsKey rest d

/-- Rust `VectorClock { clocks: HashMap<String, u64> }`. -/
structure VectorClock where
  clocks : Clocks
deriving DecidableEq

/-- The unique-keys invariant every `HashMap` value satisfies. -/
def keysNodup (a : VectorClock) : Prop :=
  (a.clocks.map Prod.fst).Nodup

instance (a : VectorClock) : Decidable (keysNodup a) := by
  unfold keysNodup
  infer_instance

/-- Counter of device `d` in clock `a`, missing keys read as zero. -/
def VectorClock.get (a : VectorClock) (d : String) : Nat :=
  lookupD a.clocks d

/-- Whether clock `a` has an explicit entry for device `d`. -/
def VectorClock.hasKey (a : VectorClock) (d : String) : Bool :=
  containsKey a.clocks d

/-- Models `VectorClock::happens_before`.  The Rust loop returns `false` as
soon as one of `self`'s counters exceeds the counterpart (here: the `all`
conjunct), and otherwise returns the `at_least_one_less` flag, set either by a
strictly smaller counter of `self` or by a positive counter of `other` whose
device is absent from `self`. -/
def VectorClock.happens_before (a b : VectorClock) : Bool :=
  (a.clocks.all fun p => decide (p.2 ≤ b.get p.1)) &&
  ((a.clocks.any fun p => decide (p.2 < b.get p.1)) ||
   (b.clocks.any fun p => !a.hasKey p.1 && decide (0 < p.2)))

/-- Models `VectorClock::is_concurrent`. -/
def VectorClock.is_concurrent (a b : VectorClock) : Bool :=
  !a.happens_before b && !b.happens_before a

/-- One step of `VectorClock::merge`: `self.clocks.entry(device).or_insert(0)`
followed by `*current = (*current).max(count)`.  The first entry with the key
is updated in place; an absent key appends `max 0 count = count`. -/
def insertMax : Clocks → String → Nat → Clocks
  | [], d, c => [(d, c)]
  | (k, v) :: rest, d, c =>
    if k = d then (k, max v c) :: rest else (k, v) :: insertMax rest d c

/-- Models `VectorClock::merge` (the Rust method mutates `self`; here the
merged clock is returned). -/
def VectorClock.merge (a b : VectorClock) : VectorClock :=
  ⟨b.clocks.foldl (fun acc p => insertMax acc p.1 p.2) a.clocks⟩

/-- All counters match, missing entries read as zero. -/
def VectorClock.eqCounters (a b : VectorClock) : Prop :=
  ∀ d, a.get d = b.get d

/-- Rust `SyncEntity` (sync-coordinator/src/conflict_resolution.rs); the UUID
is modelled as `Nat`, the JSON payload as an opaque `String`, and the
`DateTime<Utc>` modification time as `Int`. -/
structure SyncEntity where
  id : Nat
  data : String
  vector_clock : VectorClock
  last_modified : Int
  device_id : String
deriving DecidableEq

/-- Rust `enum ConflictResolution`. -/
inductive ConflictResolution where
  | NoConflict (e : SyncEntity)
  | LastWriteWins (e : SyncEntity)
  | Merge (e : SyncEntity)
  | RequiresManual (es : List SyncEntity)
deriving DecidableEq

instance {ε α : Type} [DecidableEq ε] [DecidableEq α] : DecidableEq (Except ε α) :=
  fun a b =>
    match a, b with
    | .ok x, .ok y => decidable_of_iff (x = y) (by simp)
    | .error x, .error y => decidable_of_iff (x = y) (by simp)
    | .ok _, .error _ => isFalse (by simp)
    | .error _, .ok _ => isFalse (by simp)

/-- Models `resolve_conflict`; the Rust signature is `Result<ConflictResolution>`
and every return site wraps in `Ok`. -/
def resolve_conflict (loc rmt : SyncEntity) : Except String ConflictResolution :=
  if loc.vector_clock.happens_before rmt.vector_clock then
    .ok (.NoConflict rmt)
  else if rmt.vector_clock.happens_before loc.vector_clock then
    .ok (.NoConflict loc)
  else if loc.vector_clock.is_concurrent rmt.vector_clock then
    if loc.last_modified > rmt.last_modified then
      .ok (.LastWriteWins loc)
    else
      .ok (.LastWriteWins rmt)
  else
    .ok (.NoConflict loc)

/-- Rust `enum MemoryType` (shared/src/types.rs). -/
inductive MemoryType where
  | Episodic
  | Semantic
  | Procedural
deriving DecidableEq

/-- Rust `struct Memory` (shared/src/types.rs): UUIDs as `Nat`, timestamps as
`Int` seconds, `f32` valence and embedding coordinates as `ℚ`. -/
structure Memory where
  id : Nat
  user_id : Nat
  memory_type : MemoryType
  content : String
  embedding : Option (List ℚ)
  emotional_valence : Option ℚ
  created_at : Int
  last_accessed : Option Int
deriving DecidableEq

/-- Rust `struct Pattern` (memory-synthesis/src/pattern_detection.rs). -/
structure Pattern where
  memory_ids : List Nat
  pattern_type : String
  confidence : ℚ
  synthesis : String
deriving DecidableEq

/-- Models `chrono::Duration::num_hours` on a duration of `secs` seconds:
`i64` division truncates toward zero. -/
def numHours (secs : Int) : Int :=
  secs.tdiv 3600

/-- The group-closing test in `detect_temporal_patterns`:
`diff.num_hours().abs() > 24` for `diff = cur − last` seconds. -/
def temporalGapExceeded (last cur : Int) : Bool :=
  decide (24 < (numHours (cur - last)).natAbs)

/-- Emission of a closed temporal group: a `temporal_cluster` pattern with
confidence 0.8 is pushed iff the group holds at least 3 memories. -/
def closeGroup (cur : List Memory) : List (List Memory) :=
  if 3 ≤ cur.length then [cur] else []

/-- The loop body of `detect_temporal_patterns`: walk the fetched memories,
keep a rolling `cur` group and the previously seen timestamp `last`; when the
gap exceeds 24 (truncated) hours, close the group and start a new one with the
current memory.  The groups carry whole memories so that closure invariants
can be stated; the Rust code stores `memory.id` only, recovered below by
`Memory.id`-projection. -/
def temporalLoop : List Memory → List Memory → Option Int → List (List Memory)
  | [], _, _ => []
  | m :: rest, cur, some l =>
    if temporalGapExceeded l m.created_at then
      closeGroup cur ++ temporalLoop rest [m] (some m.created_at)
    else
      temporalLoop rest (cur ++ [m]) (some m.created_at)
  | m :: rest, cur, none =>
    temporalLoop rest (cur ++ [m]) (some m.created_at)

/-- The groups emitted by one run of `detect_temporal_patterns` (the final
open group is never emitted, exactly as in the source). -/
def temporalGroups (mems : List Memory) : List (List Memory) :=
  temporalLoop mems [] none

/-- The pattern built for one closed temporal group. -/
def mkTemporalPattern (g : List Memory) : Pattern :=
  ⟨g.map Memory.id, "temporal_cluster", mkRat 4 5,
   "Cluster of " ++ toString g.length ++ " memories within 24-hour period"⟩

/-- Models `PatternDetector::detect_temporal_patterns`. -/
def detect_temporal_patterns (mems : List Memory) : List Pattern :=
  (temporalGroups mems).map mkTemporalPattern

/-- The positive-valence test of `detect_emotional_patterns`: `valence > 0.3`. -/
def isPositive (m : Memory) : Bool :=
  match m.emotional_valence with
  | some v => decide (mkRat 3 10 < v)
  | none => false

/-- The negative-valence test of `detect_emotional_patterns`: `valence < -0.3`
(reached only when the positive test failed). -/
def isNegative (m : Memory) : Bool :=
  match m.emotional_valence with
  | some v => decide (v < mkRat (-3) 10)
  | none => false

/-- The binning loop of `detect_emotional_patterns`: memories with a valence
go to the positive, negative or neutral bin, in input order. -/
def emotionalBins : List Memory → List Nat × List Nat × List Nat
  | [] => ([], [], [])
  | m :: rest =>
    let r := emotionalBins rest
    match m.emotional_valence with
    | some v =>
      if mkRat 3 10 < v then (m.id :: r.1, r.2.1, r.2.2)
      else if v < mkRat (-3) 10 then (r.1, m.id :: r.2.1, r.2.2)
      else (r.1, r.2.1, m.id :: r.2.2)
    | none => r

/-- Models `PatternDetector::detect_emotional_patterns`: emit the positive bin
(then the negative bin) as a pattern with confidence 0.85 iff it holds at
least 5 memories; the neutral bin is never emitted. -/
def detect_emotional_patterns (mems : List Memory) : List Pattern :=
  let bins := emotionalBins mems
  (if 5 ≤ bins.1.length then
    [⟨bins.1, "emotional_positive", mkRat 17 20, "Cluster of positive emotional memories"⟩]
   else []) ++
  (if 5 ≤ bins.2.1.length then
    [⟨bins.2.1, "emotional_negative", mkRat 17 20, "Cluster of negative emotional memories"⟩]
   else [])

/-- The patterns `PatternDetector::write_patterns` persists: the loop skips a
pattern iff `pattern.confidence < self.min_confidence`. -/
def write_patterns_kept (min_confidence : ℚ) (patterns : List Pattern) : List Pattern :=
  patterns.filter fun p => !decide (p.confidence < min_confidence)

/-- The count returned by `write_patterns`. -/
def write_patterns_count (min_confidence : ℚ) (patterns : List Pattern) : Nat :=
  (write_patterns_kept min_confidence patterns).length

/-- The total count returned by `synthesize_patterns` over the three pattern
families, each gated by the same `min_confidence`. -/
def synthesize_count (min_confidence : ℚ)
    (temporal semantic emotional : List Pattern) : Nat :=
  write_patterns_count min_confidence temporal +
  write_patterns_count min_confidence semantic +
  write_patterns_count min_confidence emotional

/-- Rust `trait DecayModel` implementors (psychology-decay/src/decay_models.rs),
as one inductive: each constructor carries the model parameter. -/
inductive DecayModel where
  | EbbinghausCurve (decay_constant : ℝ)
  | PowerLawDecay (exponent : ℝ)
  | ExponentialDecay (half_life_hours : ℝ)

/-- Models `retention.max(0.0).min(1.0)`. -/
noncomputable def clamp01 (x : ℝ) : ℝ :=
  min (max x 0) 1

/-- Models `calculate_retention` of each model: the elapsed time is converted
to whole hours (`num_hours() as f32`), the model formula is applied to the
initial strength, and the result is clamped to `[0, 1]`. -/
noncomputable def calculate_retention (model : DecayModel)
    (time_since_secs : Int) (initial_strength : ℝ) : ℝ :=
  let t : ℝ := ((numHours time_since_secs : Int) : ℝ)
  match model with
  | .EbbinghausCurve c => clamp01 (initial_strength * Real.exp (-t / c))
  | .PowerLawDecay b => clamp01 (initial_strength * (1 + t) ^ (-b))
  | .ExponentialDecay h => clamp01 (initial_strength * (0.5 : ℝ) ^ (t / h))

/-- Models `get_model_for_layer`. -/
def get_model_for_layer (layer_number : Int) : DecayModel :=
  match layer_number with
  | 1 => .ExponentialDecay 720
  | 2 => .EbbinghausCurve 168
  | 3 => .PowerLawDecay 0.5
  | 4 => .ExponentialDecay 360
  | 5 => .EbbinghausCurve 240
  | 6 => .ExponentialDecay 480
  | 7 => .EbbinghausCurve 1440
  | _ => .EbbinghausCurve 168

/-- The `decay_rate` value one decay tick writes for a layer whose
`last_updated` lies `time_since_secs` seconds in the past: `calculate_all_decay`
calls `model.calculate_retention(time_since, 1.0)`. -/
noncomputable def decay_tick_value (layer_number : Int) (time_since_secs : Int) : ℝ :=
  calculate_retention (get_model_for_layer layer_number) time_since_secs 1

/-- Rust `struct PsychologyLayer` (shared/src/types.rs), the fields
`calculate_all_decay` reads; the JSON payload is dropped and the `f32`
`decay_rate` modelled over `ℚ` (its value never steers control flow). -/
structure PsychologyLayer where
  id : Nat
  user_id : Nat
  layer_number : Int
  layer_name : String
  decay_rate : ℚ
  last_updated : Int
deriving DecidableEq

/-- The row loop of `calculate_all_decay`: for each row the UPDATE statement
(the oracle `upd`, covering the database round trip) either succeeds, adding 1
to `updated`, or fails, in which case the `?` operator returns the error at
once. -/
def decayLoop (upd : PsychologyLayer → Except String Unit) :
    List PsychologyLayer → Nat → Except String Nat
  | [], updated => .ok updated
  | row :: rest, updated =>
    match upd row with
    | .ok _ => decayLoop upd rest (updated + 1)
    | .error e => .error e

/-- Models `calculate_all_decay`, the per-row retention computation abstracted
into the update oracle (it is modelled separately by `decay_tick_value`). -/
def calculate_all_decay (upd : PsychologyLayer → Except String Unit)
    (rows : List PsychologyLayer) : Except String Nat :=
  decayLoop upd rows 0

/-- The rows whose UPDATE is actually attempted in one pass: every row up to
and including the first failing one. -/
def attemptedLayers (upd : PsychologyLayer → Except String Unit) :
    List PsychologyLayer → List PsychologyLayer
  | [] => []
  | row :: rest =>
    match upd row with
    | .ok _ => row :: attemptedLayers upd rest
    | .error _ => [row]

/-! ### Association-list lemmas for the vector-clock embedding -/

theorem lookupD_of_mem {l : Clocks} {p : String × Nat}
    (hn : (l.map Prod.fst).Nodup) (hm : p ∈ l) : lookupD l p.1 = p.2 := by
  induction l with
  | nil => cases hm
  | cons q rest ih =>
    obtain ⟨k, v⟩ := q
    simp only [List.map_cons, List.nodup_cons] at hn
    rcases List.mem_cons.mp hm with rfl | hmem
    · simp [lookupD]
    · have hk : k ≠ p.1 := by
        intro h
        exact hn.1 (h ▸ List.mem_map_of_mem Prod.fst hmem)
      simp only [lookupD, if_neg hk]
      exact ih hn.2 hmem

theorem mem_of_containsKey {l : Clocks} {d : String}
    (h : containsKey l d = true) : (d, lookupD l d) ∈ l := by
  induction l with
  | nil => simp [containsKey] at h
  | cons q rest ih =>
    obtain ⟨k, v⟩ := q
    simp only [containsKey, Bool.or_eq_true, decide_eq_true_eq] at h
    by_cases hk : k = d
    · subst hk
      simp [lookupD]
    · rcases h with h | h
      · exact absurd h hk
      · simp only [lookupD, if_neg hk]
        exact List.mem_cons_of_mem _ (ih h)

theorem lookupD_of_not_containsKey {l : Clocks} {d : String}
    (h : containsKey l d = false) : lookupD l d = 0 := by
  induction l with
  | nil => rfl
  | cons q rest ih =>
    obtain ⟨k, v⟩ := q
    simp only [containsKey, Bool.or_eq_false_iff, decide_eq_false_iff_not] at h
    simp only [lookupD, if_neg h.1]
    exact ih h.2

theorem containsKey_of_mem {l : Clocks} {p : String × Nat}
    (hm : p ∈ l) : containsKey l p.1 = true := by
  induction l with
  | nil => cases hm
  | cons q rest ih =>
    obtain ⟨k, v⟩ := q
    rcases List.mem_cons.mp hm with rfl | hmem
    · simp [containsKey]
    · simp [containsKey, ih hmem]

theorem lookupD_insertMax (l : Clocks) (d : String) (c : Nat) (e : String) :
    lookupD (insertMax l d c) e =
      if d = e then max (lookupD l e) c else lookupD l e := by
  induction l with
  | nil =>
    by_cases h : d = e <;> simp [insertMax, lookupD, h]
  | cons q rest ih =>
    obtain ⟨k, v⟩ := q
    by_cases hk : k = d
    · subst hk
      by_cases he : k = e
      · subst he
        simp [insertMax, lookupD]
      · simp [insertMax, lookupD, he]
    · by_cases he : k = e
      · subst he
        have hd : d ≠ k := fun h => hk h.symm
        simp [insertMax, hk, lookupD, hd]
      · simp [insertMax, hk, lookupD, he, ih]

/-! ### `happens_before` characterisation and order lemmas -/

theorem happens_before_iff (a b : VectorClock) :
    a.happens_before b = true ↔
      ((∀ p ∈ a.clocks, p.2 ≤ b.get p.1) ∧
       ((∃ p ∈ a.clocks, p.2 < b.get p.1) ∨
        (∃ p ∈ b.clocks, a.hasKey p.1 = false ∧ 0 < p.2))) := by
  simp [VectorClock.happens_before, List.all_eq_true, List.any_eq_true,
    Bool.and_eq_true, Bool.or_eq_true, Bool.not_eq_true']

theorem get_le_of_happens_before {a b : VectorClock}
    (h : a.happens_before b = true) (d : String) : a.get d ≤ b.get d := by
  have hall := (happens_before_iff a b).mp h |>.1
  by_cases hc : containsKey a.clocks d
  · exact hall _ (mem_of_containsKey hc)
  · have : a.get d = 0 :=
      lookupD_of_not_containsKey (Bool.eq_false_iff.mpr hc)
    simp [this]

theorem happens_before_irrefl {a : VectorClock} (ha : keysNodup a) :
    a.happens_before a = false := by
  cases hb : a.happens_before a with
  | false => rfl
  | true =>
    exfalso
    obtain ⟨_, hstrict⟩ := (happens_before_iff a a).mp hb
    rcases hstrict with ⟨p, hp, hlt⟩ | ⟨p, hp, hkey, hpos⟩
    · rw [VectorClock.get, lookupD_of_mem ha hp] at hlt
      exact lt_irrefl _ hlt
    · rw [VectorClock.hasKey, containsKey_of_mem hp] at hkey
      cases hkey

theorem happens_before_trans {a b c : VectorClock}
    (hnb : keysNodup b) (hnc : keysNodup c)
    (hab : a.happens_before b = true) (hbc : b.happens_before c = true) :
    a.happens_before c = true := by
  obtain ⟨hallab, _⟩ := (happens_before_iff a b).mp hab
  obtain ⟨_, hstrictbc⟩ := (happens_before_iff b c).mp hbc
  have hble : ∀ d, b.get d ≤ c.get d := get_le_of_happens_before hbc
  have hale : ∀ d, a.get d ≤ b.get d := get_le_of_happens_before hab
  apply (happens_before_iff a c).mpr
  refine ⟨fun p hp => le_trans (hallab p hp) (hble p.1), ?_⟩
  rcases hstrictbc with ⟨p, hp, hlt⟩ | ⟨p, hp, hkey, hpos⟩
  · have hbp : b.get p.1 = p.2 := lookupD_of_mem hnb hp
    by_cases hca : containsKey a.clocks p.1 = true
    · left
      refine ⟨(p.1, a.get p.1), mem_of_containsKey hca, ?_⟩
      show a.get p.1 < c.get p.1
      calc a.get p.1 ≤ b.get p.1 := hale p.1
        _ = p.2 := hbp
        _ < c.get p.1 := hlt
    · right
      have hcpos : 0 < c.get p.1 := lt_of_le_of_lt (Nat.zero_le _) hlt
      have hcc : containsKey c.clocks p.1 = true := by
        by_contra h
        have h0 : lookupD c.clocks p.1 = 0 :=
          lookupD_of_not_containsKey (Bool.eq_false_iff.mpr h)
        rw [VectorClock.get, h0] at hcpos
        exact lt_irrefl 0 hcpos
      exact ⟨(p.1, c.get p.1), mem_of_containsKey hcc,
        Bool.eq_false_iff.mpr hca, hcpos⟩
  · have hb0 : b.get p.1 = 0 :=
      lookupD_of_not_containsKey (by rwa [VectorClock.hasKey] at hkey)
    by_cases hca : containsKey a.clocks p.1 = true
    · left
      refine ⟨(p.1, a.get p.1), mem_of_containsKey hca, ?_⟩
      show a.get p.1 < c.get p.1
      have ha0 : a.get p.1 = 0 := Nat.le_zero.mp (hb0 ▸ hale p.1)
      have hcp : c.get p.1 = p.2 := lookupD_of_mem hnc hp
      rw [ha0, hcp]
      exact hpos
    · exact Or.inr ⟨p, hp, Bool.eq_false_iff.mpr hca, hpos⟩

theorem happens_before_eq_false_of_eqCounters {a b : VectorClock}
    (hna : keysNodup a) (hnb : keysNodup b) (heq : a.eqCounters b) :
    a.happens_before b = false := by
  cases hb : a.happens_before b with
  | false => rfl
  | true =>
    exfalso
    obtain ⟨_, hstrict⟩ := (happens_before_iff a b).mp hb
    rcases hstrict with ⟨p, hp, hlt⟩ | ⟨p, hp, hkey, hpos⟩
    · have h1 : b.get p.1 = p.2 := by
        rw [← heq p.1]
        exact lookupD_of_mem hna hp
      rw [h1] at hlt
      exact lt_irrefl _ hlt
    · have h0 : a.get p.1 = 0 :=
        lookupD_of_not_containsKey (by rwa [VectorClock.hasKey] at hkey)
      have h1 : b.get p.1 = p.2 := lookupD_of_mem hnb hp
      have h2 := heq p.1
      rw [h0, h1] at h2
      omega

/-! ### Merge lemmas -/

theorem lookupD_foldl_insertMax_left (bs : Clocks) :
    ∀ (acc : Clocks) (d : String),
      lookupD acc d ≤ lookupD (bs.foldl (fun l p => insertMax l p.1 p.2) acc) d := by
  induction bs with
  | nil => intro acc d; exact le_refl _
  | cons q rest ih =>
    intro acc d
    obtain ⟨k, v⟩ := q
    simp only [List.foldl_cons]
    have step : lookupD acc d ≤ lookupD (insertMax acc k v) d := by
      rw [lookupD_insertMax]
      by_cases h : k = d <;> simp [h]
    exact le_trans step (ih (insertMax acc k v) d)

theorem lookupD_foldl_insertMax_right (bs : Clocks) :
    ∀ (acc : Clocks) (d : String),
      lookupD bs d ≤ lookupD (bs.foldl (fun l p => insertMax l p.1 p.2) acc) d := by
  induction bs with
  | nil => intro acc d; exact Nat.zero_le _
  | cons q rest ih =>
    intro acc d
    obtain ⟨k, v⟩ := q
    simp only [List.foldl_cons]
    by_cases h : k = d
    · have h1 : v ≤ lookupD (insertMax acc k v) d := by
        rw [lookupD_insertMax]
        simp [h]
      have h2 := lookupD_foldl_insertMax_left rest (insertMax acc k v) d
      simp only [lookupD, if_pos h]
      exact le_trans h1 h2
    · simp only [lookupD, if_neg h]
      exact ih (insertMax acc k v) d

/-! ### Claim theorems for the sync coordinator -/

/-- C5: `happens_before` is a strict partial order on vector clocks: it is
irreflexive, and transitive, for all clocks satisfying the hash-map
unique-keys representation invariant (explicit zero-valued and missing
entries both allowed, missing entries read as 0). -/
theorem c5_happens_before_strict_partial_order :
    (∀ A : VectorClock, keysNodup A → A.happens_before A = false) ∧
    (∀ A B C : VectorClock, keysNodup B → keysNodup C →
      A.happens_before B = true → B.happens_before C = true →
      A.happens_before C = true) :=
  ⟨fun _ ha => happens_before_irrefl ha,
   fun _ _ _ hb hc hab hbc => happens_before_trans hb hc hab hbc⟩

/-- Witness for C5 at concrete clocks: irreflexivity at `{A:1}` and
transitivity along `{A:1} → {A:1, B:1} → {A:2, B:1}`. -/
theorem c5_happens_before_witness :
    ((VectorClock.mk [("A", 1)]).happens_before (VectorClock.mk [("A", 1)]) = false) ∧
    ((VectorClock.mk [("A", 1)]).happens_before (VectorClock.mk [("A", 2), ("B", 1)]) = true) :=
  ⟨c5_happens_before_strict_partial_order.1 (VectorClock.mk [("A", 1)]) (by decide),
   c5_happens_before_strict_partial_order.2 (VectorClock.mk [("A", 1)])
     (VectorClock.mk [("A", 1), ("B", 1)]) (VectorClock.mk [("A", 2), ("B", 1)])
     (by decide) (by decide) (by decide) (by decide)⟩

/-- C6: `merge` dominates both arguments coordinate-wise (missing entries
read as 0). -/
theorem c6_merge_dominates (A B : VectorClock) (d : String) :
    A.get d ≤ (A.merge B).get d ∧ B.get d ≤ (A.merge B).get d :=
  ⟨lookupD_foldl_insertMax_left B.clocks A.clocks d,
   lookupD_foldl_insertMax_right B.clocks A.clocks d⟩

/-- A local/remote pair with identical (hence counter-equal) vector clocks
and identical modification timestamps. -/
def c1Local : SyncEntity :=
  ⟨1, "payload", ⟨[("A", 1)]⟩, 100, "device1"⟩

/-- Remote twin of `c1Local`, same clock `{A:1}` and timestamp. -/
def c1Remote : SyncEntity :=
  ⟨1, "payload", ⟨[("A", 1)]⟩, 100, "device2"⟩

/-- C1 counterexample: for the entities `c1Local`/`c1Remote`, whose vector
clocks are counter-equal, `resolve_conflict` does not return
`NoConflict(local)`; it lands in the `is_concurrent` branch (which is true
for equal clocks, both `happens_before` directions being false) and returns
`LastWriteWins(remote)` on the timestamp tie.  The function's final
`NoConflict(local)` return is unreachable. -/
theorem c1_equal_clocks_counterexample :
    c1Local.vector_clock.eqCounters c1Remote.vector_clock ∧
    resolve_conflict c1Local c1Remote ≠ .ok (.NoConflict c1Local) ∧
    resolve_conflict c1Local c1Remote = .ok (.LastWriteWins c1Remote) :=
  ⟨fun _ => rfl, by decide, by decide⟩

/-- C1 (amended): for entities whose vector clocks are counter-equal (all
counters match, missing entries read as zero), `resolve_conflict` takes the
concurrent branch and resolves by last-write-wins: `LastWriteWins(L)` when
`L.last_modified > R.last_modified`, else `LastWriteWins(R)`. -/
theorem c1_equal_clocks_last_write_wins (L R : SyncEntity)
    (hL : keysNodup L.vector_clock) (hR : keysNodup R.vector_clock)
    (heq : L.vector_clock.eqCounters R.vector_clock) :
    resolve_conflict L R =
      .ok (if L.last_modified > R.last_modified then ConflictResolution.LastWriteWins L
           else ConflictResolution.LastWriteWins R) := by
  have h1 := happens_before_eq_false_of_eqCounters hL hR heq
  have h2 := happens_before_eq_false_of_eqCounters hR hL (fun d => (heq d).symm)
  unfold resolve_conflict VectorClock.is_concurrent
  rw [h1, h2]
  simp only [Bool.false_eq_true, if_false, Bool.not_false, Bool.and_self, if_true]
  split <;> rfl

/-- Witness for the amended C1 at `c1Local`/`c1Remote`. -/
theorem c1_equal_clocks_witness :
    keysNodup c1Local.vector_clock ∧ keysNodup c1Remote.vector_clock ∧
    c1Local.vector_clock.eqCounters c1Remote.vector_clock ∧
    resolve_conflict c1Local c1Remote =
      .ok (if c1Local.last_modified > c1Remote.last_modified
           then ConflictResolution.LastWriteWins c1Local
           else ConflictResolution.LastWriteWins c1Remote) :=
  ⟨by decide, by decide, fun _ => rfl,
   c1_equal_clocks_last_write_wins c1Local c1Remote (by decide) (by decide) (fun _ => rfl)⟩

/-- C4: for entities whose clocks are concurrent (neither happens-before the
other — this already covers the claim's "and not equal" restriction),
`resolve_conflict` resolves by last-write-wins on `last_modified`, with ties
going to the remote entity `R`. -/
theorem c4_concurrent_last_write_wins (L R : SyncEntity)
    (h1 : L.vector_clock.happens_before R.vector_clock = false)
    (h2 : R.vector_clock.happens_before L.vector_clock = false) :
    resolve_conflict L R =
      .ok (if L.last_modified > R.last_modified then ConflictResolution.LastWriteWins L
           else ConflictResolution.LastWriteWins R) ∧
    (L.last_modified = R.last_modified →
      resolve_conflict L R = .ok (ConflictResolution.LastWriteWins R)) := by
  have hmain : resolve_conflict L R =
      .ok (if L.last_modified > R.last_modified then ConflictResolution.LastWriteWins L
           else ConflictResolution.LastWriteWins R) := by
    unfold resolve_conflict VectorClock.is_concurrent
    rw [h1, h2]
    simp only [Bool.false_eq_true, if_false, Bool.not_false, Bool.and_self, if_true]
    split <;> rfl
  refine ⟨hmain, fun he => ?_⟩
  rw [hmain, if_neg]
  rw [he]
  exact lt_irrefl _

/-- Witness for C4: concurrent clocks `{A:1}` and `{B:1}` with equal
timestamps; the tie resolves to the remote entity. -/
theorem c4_concurrent_witness :
    resolve_conflict ⟨1, "d", ⟨[("A", 1)]⟩, 100, "device1"⟩ ⟨1, "d", ⟨[("B", 1)]⟩, 100, "device2"⟩ =
      .ok (ConflictResolution.LastWriteWins ⟨1, "d", ⟨[("B", 1)]⟩, 100, "device2"⟩) :=
  (c4_concurrent_last_write_wins
    ⟨1, "d", ⟨[("A", 1)]⟩, 100, "device1"⟩ ⟨1, "d", ⟨[("B", 1)]⟩, 100, "device2"⟩
    (by decide) (by decide)).2 rfl

/-- C10: `resolve_conflict` is total and conservative: on every pair of
entities it returns `Ok` (never an error), and the outcome is always either
`NoConflict` or `LastWriteWins`; `Merge` and `RequiresManual` are never
produced. -/
theorem c10_resolve_conflict_total (loc rmt : SyncEntity) :
    ∃ o, resolve_conflict loc rmt = .ok o ∧
      ((∃ e, o = ConflictResolution.NoConflict e) ∨
       (∃ e, o = ConflictResolution.LastWriteWins e)) := by
  unfold resolve_conflict
  split_ifs <;>
    first
      | exact ⟨_, rfl, Or.inl ⟨_, rfl⟩⟩
      | exact ⟨_, rfl, Or.inr ⟨_, rfl⟩⟩

/-! ### Temporal-pattern lemmas -/

/-- Invariant of the temporal grouping loop: if the rolling group is gap-free
and its last element's timestamp is the `last` seen one, then every emitted
group has at least 3 members and consecutive members never trip the
24-truncated-hour gap test. -/
theorem temporalLoop_chain (mems : List Memory) :
    ∀ (cur : List Memory) (last : Option Int),
      List.Chain' (fun x y => temporalGapExceeded x.created_at y.created_at = false) cur →
      (cur = [] ∨ ∃ x, cur.getLast? = some x ∧ last = some x.created_at) →
      ∀ g ∈ temporalLoop mems cur last,
        3 ≤ g.length ∧
        List.Chain' (fun x y => temporalGapExceeded x.created_at y.created_at = false) g := by
  induction mems with
  | nil =>
    intro cur last _ _ g hg
    simp [temporalLoop] at hg
  | cons m rest ih =>
    intro cur last hchain hlast g hg
    cases last with
    | none =>
      have hc : cur = [] := by
        rcases hlast with h | ⟨x, _, hx⟩
        · exact h
        · cases hx
      subst hc
      exact ih ([] ++ [m]) (some m.created_at) (by simp)
        (Or.inr ⟨m, by simp, rfl⟩) g hg
    | some l =>
      simp only [temporalLoop] at hg
      by_cases hgap : temporalGapExceeded l m.created_at = true
      · rw [if_pos hgap] at hg
        rcases List.mem_append.mp hg with hg1 | hg2
        · unfold closeGroup at hg1
          by_cases hlen : 3 ≤ cur.length
          · rw [if_pos hlen] at hg1
            simp only [List.mem_singleton] at hg1
            subst hg1
            exact ⟨hlen, hchain⟩
          · rw [if_neg hlen] at hg1
            cases hg1
        · exact ih [m] (some m.created_at) (by simp)
            (Or.inr ⟨m, by simp, rfl⟩) g hg2
      · rw [if_neg hgap] at hg
        refine ih (cur ++ [m]) (some m.created_at) ?_
          (Or.inr ⟨m, by simp, rfl⟩) g hg
        apply List.Chain'.append hchain (by simp)
        intro x hx y hy
        simp only [List.head?_cons, Option.mem_some_iff] at hy
        subst hy
        rcases hlast with hc | ⟨x', hx', hl⟩
        · subst hc
          simp at hx
        · rw [hx'] at hx
          simp only [Option.mem_some_iff] at hx
          subst hx
          injection hl with hl
          rw [← hl]
          exact Bool.eq_false_iff.mpr hgap

/-- Constructor for the memories of the C2 examples: only identifier and
creation timestamp (seconds) matter for the temporal family. -/
def c2Mem (i : Nat) (t : Int) : Memory :=
  ⟨i, 7, .Episodic, "m", none, none, t, none⟩

/-- The C2 example input, in the fetched descending creation-time order:
memories 1 and 2 are 87000 s apart (24 h 10 min, i.e. more than 24 hours but
only 24 truncated hours), 2 and 3 are 3000 s apart, and 3 and 4 are
110000 s apart (which closes the group and emits it). -/
def c2Memories : List Memory :=
  [c2Mem 1 200000, c2Mem 2 113000, c2Mem 3 110000, c2Mem 4 0]

/-- C2 counterexample: on `c2Memories` the single emitted `temporal_cluster`
holds memories 1, 2, 3, yet the consecutive memories 1 and 2 differ by
87000 s > 24 h: `num_hours()` truncates, so a gap strictly between 24 h and
25 h does not close the group, refuting the claim that closure happens
exactly when the gap exceeds 24 hours. -/
theorem c2_temporal_gap_counterexample :
    ((detect_temporal_patterns c2Memories).map Pattern.memory_ids = [[1, 2, 3]]) ∧
    ¬ (∀ g ∈ temporalGroups c2Memories, ∀ q ∈ g.zip g.tail,
        (q.2.created_at - q.1.created_at).natAbs ≤ 24 * 3600) := by
  decide

/-- C2 (amended): the rolling group is closed exactly when the whole-hour
truncation of the gap exceeds 24 (`|num_hours(gap)| > 24`, i.e. the gap is at
least 25 whole hours); consequently every emitted `temporal_cluster` comes
from a group of at least 3 memories in which no two consecutive memories trip
that truncated-hour test. -/
theorem c2_temporal_closure_amended (mems : List Memory) (p : Pattern)
    (hp : p ∈ detect_temporal_patterns mems) :
    ∃ g ∈ temporalGroups mems,
      p = mkTemporalPattern g ∧ 3 ≤ g.length ∧
      List.Chain' (fun x y => temporalGapExceeded x.created_at y.created_at = false) g := by
  obtain ⟨g, hg, rfl⟩ := List.mem_map.mp hp
  have h := temporalLoop_chain mems [] none (by simp) (Or.inl rfl) g hg
  exact ⟨g, hg, rfl, h.1, h.2⟩

/-- Witness for the amended C2 at `c2Memories`. -/
theorem c2_temporal_closure_witness :
    (mkTemporalPattern [c2Mem 1 200000, c2Mem 2 113000, c2Mem 3 110000] ∈
      detect_temporal_patterns c2Memories) ∧
    ∃ g ∈ temporalGroups c2Memories,
      mkTemporalPattern [c2Mem 1 200000, c2Mem 2 113000, c2Mem 3 110000] =
        mkTemporalPattern g ∧ 3 ≤ g.length ∧
      List.Chain' (fun x y => temporalGapExceeded x.created_at y.created_at = false) g :=
  ⟨by decide, c2_temporal_closure_amended c2Memories _ (by decide)⟩

/-! ### Emotional-pattern lemmas -/

theorem emotionalBins_fst (mems : List Memory) :
    (emotionalBins mems).1 = (mems.filter isPositive).map Memory.id := by
  induction mems with
  | nil => rfl
  | cons m rest ih =>
    cases hv : m.emotional_valence with
    | none => simp [emotionalBins, hv, isPositive, List.filter_cons, ih]
    | some v =>
      by_cases h1 : mkRat 3 10 < v
      · simp [emotionalBins, hv, isPositive, h1, List.filter_cons, ih]
      · by_cases h2 : v < mkRat (-3) 10
        · simp [emotionalBins, hv, isPositive, h1, h2, List.filter_cons, ih]
        · simp [emotionalBins, hv, isPositive, h1, h2, List.filter_cons, ih]

theorem emotionalBins_snd (mems : List Memory) :
    (emotionalBins mems).2.1 = (mems.filter isNegative).map Memory.id := by
  induction mems with
  | nil => rfl
  | cons m rest ih =>
    cases hv : m.emotional_valence with
    | none => simp [emotionalBins, hv, isNegative, List.filter_cons, ih]
    | some v =>
      by_cases h1 : mkRat 3 10 < v
      · have h2 : ¬ v < mkRat (-3) 10 :=
          not_lt.mpr (le_trans (by decide) (le_of_lt h1))
        simp [emotionalBins, hv, isNegative, h1, h2, List.filter_cons, ih]
      · by_cases h2 : v < mkRat (-3) 10
        · simp [emotionalBins, hv, isNegative, h1, h2, List.filter_cons, ih]
        · simp [emotionalBins, hv, isNegative, h1, h2, List.filter_cons, ih]

/-- C9: the emotional family bins memories with a valence by the +0.3 / −0.3
thresholds; an `emotional_positive` (resp. `emotional_negative`) pattern is
emitted exactly when the corresponding bin holds at least 5 memories, with
`memory_ids` equal to that bin and confidence 0.85 (= 17/20); no other
pattern — in particular none for the neutral bin — is ever emitted. -/
theorem c9_emotional_patterns (mems : List Memory) :
    ((∃ p ∈ detect_emotional_patterns mems, p.pattern_type = "emotional_positive") ↔
      5 ≤ (mems.filter isPositive).length) ∧
    ((∃ p ∈ detect_emotional_patterns mems, p.pattern_type = "emotional_negative") ↔
      5 ≤ (mems.filter isNegative).length) ∧
    (∀ p ∈ detect_emotional_patterns mems, p.pattern_type = "emotional_positive" →
      p.memory_ids = (mems.filter isPositive).map Memory.id ∧
      p.confidence = mkRat 17 20) ∧
    (∀ p ∈ detect_emotional_patterns mems, p.pattern_type = "emotional_negative" →
      p.memory_ids = (mems.filter isNegative).map Memory.id ∧
      p.confidence = mkRat 17 20) ∧
    (∀ p ∈ detect_emotional_patterns mems,
      p.pattern_type = "emotional_positive" ∨ p.pattern_type = "emotional_negative") := by
  simp only [detect_emotional_patterns, emotionalBins_fst, emotionalBins_snd,
    List.length_map]
  by_cases hp : 5 ≤ (mems.filter isPositive).length <;>
    by_cases hn : 5 ≤ (mems.filter isNegative).length <;>
      simp [hp, hn]

/-- Constructor for the memories of the C9 witness. -/
def c9Mem (i : Nat) (v : ℚ) : Memory :=
  ⟨i, 7, .Episodic, "m", none, some v, 0, none⟩

/-- The spec's emotional-gating test input: 4 memories with valence +0.5 and
6 with valence −0.5. -/
def c9Memories : List Memory :=
  [c9Mem 1 (mkRat 1 2), c9Mem 2 (mkRat 1 2), c9Mem 3 (mkRat 1 2), c9Mem 4 (mkRat 1 2),
   c9Mem 5 (mkRat (-1) 2), c9Mem 6 (mkRat (-1) 2), c9Mem 7 (mkRat (-1) 2),
   c9Mem 8 (mkRat (-1) 2), c9Mem 9 (mkRat (-1) 2), c9Mem 10 (mkRat (-1) 2)]

/-- Witness for C9: on `c9Memories` the negative bin holds 6 ≥ 5 memories, so
an `emotional_negative` pattern is emitted. -/
theorem c9_emotional_witness :
    ∃ p ∈ detect_emotional_patterns c9Memories,
      p.pattern_type = "emotional_negative" :=
  (c9_emotional_patterns c9Memories).2.1.mpr (by decide)

/-! ### Gating lemmas -/

theorem mem_write_patterns_kept {θ : ℚ} {ps : List Pattern} {p : Pattern}
    (hp : p ∈ write_patterns_kept θ ps) : ¬ p.confidence < θ := by
  have h := List.of_mem_filter hp
  simpa using h

/-- C8: gating is sound and monotone: persisted patterns never have
confidence below the threshold, and raising the threshold cannot increase the
count `synthesize_patterns` returns. -/
theorem c8_gating_monotone (θ θ' : ℚ)
    (temporal semantic emotional : List Pattern) (h : θ ≤ θ') :
    (∀ p ∈ write_patterns_kept θ temporal, ¬ p.confidence < θ) ∧
    (∀ p ∈ write_patterns_kept θ semantic, ¬ p.confidence < θ) ∧
    (∀ p ∈ write_patterns_kept θ emotional, ¬ p.confidence < θ) ∧
    synthesize_count θ' temporal semantic emotional ≤
      synthesize_count θ temporal semantic emotional := by
  have hmono : ∀ ps : List Pattern,
      write_patterns_count θ' ps ≤ write_patterns_count θ ps := by
    intro ps
    apply List.Sublist.length_le
    apply List.monotone_filter_right
    intro p hp
    simp only [Bool.not_eq_true', decide_eq_false_iff_not] at hp ⊢
    exact fun hlt => hp (lt_of_lt_of_le hlt h)
  exact ⟨fun _ hp => mem_write_patterns_kept hp,
    fun _ hp => mem_write_patterns_kept hp,
    fun _ hp => mem_write_patterns_kept hp,
    Nat.add_le_add (Nat.add_le_add (hmono temporal) (hmono semantic)) (hmono emotional)⟩

/-- A single candidate pattern used by the C8 witness. -/
def c8Pattern : Pattern :=
  ⟨[1, 2, 3], "semantic_cluster", mkRat 3 4, "cluster"⟩

/-- Witness for C8 at thresholds 1/2 ≤ 9/10 over one single-pattern family:
the kept-pattern property and the monotone count. -/
theorem c8_gating_witness :
    (∀ p ∈ write_patterns_kept (mkRat 1 2) [c8Pattern], ¬ p.confidence < mkRat 1 2) ∧
    synthesize_count (mkRat 9 10) [c8Pattern] [] [] ≤
      synthesize_count (mkRat 1 2) [c8Pattern] [] [] :=
  ⟨(c8_gating_monotone (mkRat 1 2) (mkRat 9 10) [c8Pattern] [] [] (by decide)).1,
   (c8_gating_monotone (mkRat 1 2) (mkRat 9 10) [c8Pattern] [] [] (by decide)).2.2.2⟩

/-! ### Decay-pass error propagation -/

theorem decayLoop_error {upd : PsychologyLayer → Except String Unit}
    {e : String} (pre : List PsychologyLayer)
    (hpre : ∀ x ∈ pre, upd x = .ok ()) {row : PsychologyLayer}
    (hrow : upd row = .error e) (post : List PsychologyLayer) :
    ∀ n, decayLoop upd (pre ++ row :: post) n = .error e := by
  induction pre with
  | nil =>
    intro n
    simp [decayLoop, hrow]
  | cons x rest ih =>
    intro n
    have hx : upd x = .ok () := hpre x (List.mem_cons_self x rest)
    simp only [List.cons_append, decayLoop, hx]
    exact ih (fun y hy => hpre y (List.mem_cons_of_mem x hy)) (n + 1)

theorem attemptedLayers_stops {upd : PsychologyLayer → Except String Unit}
    {e : String} (pre : List PsychologyLayer)
    (hpre : ∀ x ∈ pre, upd x = .ok ()) {row : PsychologyLayer}
    (hrow : upd row = .error e) (post : List PsychologyLayer) :
    attemptedLayers upd (pre ++ row :: post) = pre ++ [row] := by
  induction pre with
  | nil =>
    simp [attemptedLayers, hrow]
  | cons x rest ih =>
    have hx : upd x = .ok () := hpre x (List.mem_cons_self x rest)
    simp only [List.cons_append, attemptedLayers, hx, List.append_eq]
    rw [ih (fun y hy => hpre y (List.mem_cons_of_mem x hy))]

/-- Update oracle for the C3 example: the UPDATE succeeds on every row except
the one with id 1, where the database reports a failure. -/
def c3Upd (l : PsychologyLayer) : Except String Unit :=
  if l.id = 1 then .error "Failed to update decay rate" else .ok ()

/-- First psychology layer of the C3 example (its UPDATE fails). -/
def c3Layer1 : PsychologyLayer :=
  ⟨1, 7, 1, "Narrative Core", 0, 0⟩

/-- Second psychology layer of the C3 example (never reached). -/
def c3Layer2 : PsychologyLayer :=
  ⟨2, 7, 2, "Emotional Memory", 0, 0⟩

/-- The two-row `psychology_layers` table of the C3 example. -/
def c3Rows : List PsychologyLayer :=
  [c3Layer1, c3Layer2]

/-- C3 counterexample: with two layers and an UPDATE failure on the first,
`calculate_all_decay` returns the error (the `?` operator propagates it), the
second layer is never attempted, and the run as a whole fails — refuting the
claim that a per-layer failure is only logged and the remaining layers are
still attempted. -/
theorem c3_decay_abort_counterexample :
    calculate_all_decay c3Upd c3Rows = .error "Failed to update decay rate" ∧
    attemptedLayers c3Upd c3Rows = [c3Layer1] ∧
    c3Layer2 ∉ attemptedLayers c3Upd c3Rows := by
  decide

/-- C3 (amended): a failure while updating one layer aborts the decay pass:
the UPDATE error is returned as the failure of the whole run (the scheduler
wrapper only logs it at run granularity) and the layers after the failing one
are not attempted. -/
theorem c3_decay_abort_amended (upd : PsychologyLayer → Except String Unit)
    (pre : List PsychologyLayer) (row : PsychologyLayer)
    (post : List PsychologyLayer) (e : String)
    (hpre : ∀ x ∈ pre, upd x = .ok ()) (hrow : upd row = .error e) :
    calculate_all_decay upd (pre ++ row :: post) = .error e ∧
    attemptedLayers upd (pre ++ row :: post) = pre ++ [row] :=
  ⟨decayLoop_error pre hpre hrow post 0, attemptedLayers_stops pre hpre hrow post⟩

/-- Witness for the amended C3: one successful row before the failing one,
one row after it. -/
theorem c3_decay_abort_witness :
    (∀ x ∈ [c3Layer2], c3Upd x = .ok ()) ∧
    c3Upd c3Layer1 = .error "Failed to update decay rate" ∧
    (calculate_all_decay c3Upd ([c3Layer2] ++ c3Layer1 :: [c3Layer2]) =
       .error "Failed to update decay rate" ∧
     attemptedLayers c3Upd ([c3Layer2] ++ c3Layer1 :: [c3Layer2]) =
       [c3Layer2] ++ [c3Layer1]) :=
  ⟨by decide, by decide,
   c3_decay_abort_amended c3Upd [c3Layer2] c3Layer1 [c3Layer2]
     "Failed to update decay rate" (by decide) (by decide)⟩

/-! ### Decay-model numerics -/

theorem clamp01_bounds (x : ℝ) : 0 ≤ clamp01 x ∧ clamp01 x ≤ 1 :=
  ⟨le_min (le_max_right x 0) zero_le_one, min_le_right _ _⟩

theorem calculate_retention_bounds (m : DecayModel) (d : Int) (s : ℝ) :
    0 ≤ calculate_retention m d s ∧ calculate_retention m d s ≤ 1 := by
  cases m <;> exact clamp01_bounds _

theorem numHours_720h : numHours (720 * 3600) = 720 := by
  decide

theorem decay_tick_value_layer1 :
    decay_tick_value 1 (720 * 3600) = 0.5 := by
  have h1 : decay_tick_value 1 (720 * 3600) =
      clamp01 (1 * (0.5 : ℝ) ^ (((numHours (720 * 3600) : Int) : ℝ) / 720)) := rfl
  rw [h1, numHours_720h]
  have h2 : (((720 : Int) : ℝ) / 720) = 1 := by norm_num
  rw [h2, Real.rpow_one]
  norm_num [clamp01]

/-- C7: for a layer-1 row (exponential half-life, H = 720 h) whose
`last_updated` lies exactly 720 h in the past, the decay tick writes a
`decay_rate` within 0.01 of 0.5 (it is exactly 0.5 in real arithmetic), and
for every layer number and non-negative elapsed duration the written
retention is clamped into [0, 1]. -/
theorem c7_decay_half_life_and_bounds :
    |decay_tick_value 1 (720 * 3600) - 0.5| ≤ 0.01 ∧
    ∀ (layer_number time_since_secs : Int), 0 ≤ time_since_secs →
      0 ≤ decay_tick_value layer_number time_since_secs ∧
      decay_tick_value layer_number time_since_secs ≤ 1 := by
  refine ⟨?_, fun n d _ => calculate_retention_bounds (get_model_for_layer n) d 1⟩
  rw [decay_tick_value_layer1]
  norm_num

/-- Witness for C7's bounded-retention part at layer 3, elapsed time 0. -/
theorem c7_decay_witness :
    (0 ≤ (0 : Int)) ∧
    (0 ≤ decay_tick_value 3 0 ∧ decay_tick_value 3 0 ≤ 1) :=
  ⟨by decide, c7_decay_half_life_and_bounds.2 3 0 (by decide)⟩

end Helix
